import Mathlib

/-!
# Verification of the media-segment caching proxy (`proxyRouter`)

Shallow embedding of the HLS caching proxy route: the in-memory expiring
cache (`getCached` / `setCache`), the playlist rewriter
(`rewritePlaylistUrls`), and the `proxyRouter.get("/")` request handler.

JavaScript strings are modelled as Lean `String` (operated on through
`String.data : List Char`, since the JS operations used by the source —
`split("\n")`, `trim()`, `startsWith`, `endsWith`, `join("\n")` — are
character-wise).  JS `Map` (which iterates in insertion order, with
`set` of an existing key keeping its position and `keys().next()`
yielding the earliest-inserted key) is modelled as an insertion-ordered
association list.  `Date.now()` timestamps are milliseconds, modelled as
`Nat` and threaded explicitly.  The platform built-ins `new URL` /
`encodeURIComponent` and the HTTP layer (`fetch`, Hono's context) are
not repository code; they are modelled below, faithful to the WHATWG
behaviour on the hierarchical http(s) URLs this proxy handles.
-/

/-- JS `s.endsWith(suffix)` on character lists: exact, case-sensitive
suffix comparison. -/
def listEndsWith (l suffix : List Char) : Bool :=
  if suffix.length ≤ l.length then
    decide (l.drop (l.length - suffix.length) = suffix)
  else false

/-- JS `s.endsWith(suffix)` on strings. -/
def strEndsWith (s suffix : String) : Bool :=
  listEndsWith s.data suffix.data

/-- JS `s.startsWith(pre)` on character lists. -/
def listStartsWith (l pre : List Char) : Bool :=
  decide (l.take pre.length = pre)

/-- JS `s.startsWith(pre)` on strings. -/
def strStartsWith (s pre : String) : Bool :=
  listStartsWith s.data pre.data

/-- The whitespace characters removed by JS `trim()` (restricted to the
ASCII whitespace that can appear in an M3U8 manifest line). -/
def isJsSpace (c : Char) : Bool := c.isWhitespace

/-- JS `s.trim()` on character lists: strip whitespace from both ends. -/
def listTrim (l : List Char) : List Char :=
  ((l.dropWhile isJsSpace).reverse.dropWhile isJsSpace).reverse

/-- JS `s.trim()` on strings. -/
def strTrim (s : String) : String := String.mk (listTrim s.data)

/-- JS `s.split("\n")`: split at every newline; does not drop empty
pieces (splitting the empty string yields one empty piece). -/
def splitLinesAux (cur : List Char) : List Char → List (List Char)
  | [] => [cur.reverse]
  | c :: rest =>
    if c = '\n' then cur.reverse :: splitLinesAux [] rest
    else splitLinesAux (c :: cur) rest

/-- JS `s.split("\n")` on strings. -/
def splitLines (s : String) : List String :=
  (splitLinesAux [] s.data).map String.mk

/-- JS `arr.join("\n")`. -/
def joinLines (ls : List String) : String :=
  String.mk (List.intercalate ['\n'] (ls.map String.data))

/-- Uppercase hexadecimal digit for `n < 16` (percent-escapes produced
by `encodeURIComponent` use uppercase hex). -/
def hexDigit (n : Nat) : Char :=
  if n < 10 then Char.ofNat (48 + n) else Char.ofNat (55 + n)

/-- UTF-8 encoding of one scalar value, as byte values. -/
def utf8Bytes (c : Char) : List Nat :=
  let n := c.toNat
  if n < 128 then [n]
  else if n < 2048 then [192 + n / 64, 128 + n % 64]
  else if n < 65536 then [224 + n / 4096, 128 + (n / 64) % 64, 128 + n % 64]
  else [240 + n / 262144, 128 + (n / 4096) % 64, 128 + (n / 64) % 64, 128 + n % 64]

/-- One percent-escape, e.g. byte 47 ↦ `%2F`. -/
def percentEscape (b : Nat) : List Char :=
  ['%', hexDigit (b / 16), hexDigit (b % 16)]

/-- The characters `encodeURIComponent` leaves unescaped:
`A–Z a–z 0–9 - _ . ! ~ * ' ( )`. -/
def isUriUnreserved (c : Char) : Bool :=
  c.isAlpha || c.isDigit ||
    ['-', '_', '.', '!', '~', '*', Char.ofNat 39, '(', ')'].contains c

/-- Models the JS built-in `encodeURIComponent` on character lists:
unreserved characters pass through, every other character is replaced by
the uppercase percent-escapes of its UTF-8 bytes. -/
def encodeUriComponentList : List Char → List Char
  | [] => []
  | c :: rest =>
    (if isUriUnreserved c then [c] else ((utf8Bytes c).map percentEscape).flatten)
      ++ encodeUriComponentList rest

/-- Models the JS built-in `encodeURIComponent` on strings. -/
def encodeURIComponent (s : String) : String :=
  String.mk (encodeUriComponentList s.data)

/-!
## Model of the WHATWG `URL` built-in

The source uses `new URL(baseUrl)` and `new URL(trimmed, base).href`.
`URLRec` models a parsed hierarchical special-scheme URL: scheme, host,
path (as the list of `/`-separated segments) and optional query.
Fragments are dropped (as `href` never shows what follows `#` only after
parsing; for our purposes lines are fragments-free).  Model limits,
documented: no userinfo/port support (a `:` or `@` in the authority is
treated as a parse failure), no percent-encoding during serialization,
and non-special schemes (e.g. `data:`) are treated as parse failures.
None of the verified claims depend on these corners. -/

structure URLRec where
  scheme : List Char
  host : List Char
  segs : List (List Char)
  query : Option (List Char)
deriving DecidableEq

/-- First character of a URL scheme must be a letter. -/
def isSchemeStart (c : Char) : Bool := c.isAlpha

/-- Subsequent characters of a URL scheme. -/
def isSchemeChar (c : Char) : Bool :=
  c.isAlpha || c.isDigit || c = '+' || c = '-' || c = '.'

/-- Characters that make an authority (host) invalid — the WHATWG
forbidden host code points, plus `:` and `@` (no port/userinfo support
in this model). -/
def isForbiddenHostChar (c : Char) : Bool :=
  [' ', '#', '/', ':', '<', '>', '?', '@', '[', '\\', ']', '^', '|',
    '\t', '\n', '\r', Char.ofNat 0].contains c

/-- A valid host: nonempty, no forbidden code point. -/
def validHost (l : List Char) : Bool :=
  !l.isEmpty && !(l.any isForbiddenHostChar)

/-- Split a list of characters on a separator character (never drops
empty pieces). -/
def splitOnChar (sep : Char) (l : List Char) : List (List Char) :=
  splitLinesAux [] (l.map (fun c => if c = sep then '\n' else if c = '\n' then sep else c))
    |>.map (List.map (fun c => if c = sep then '\n' else if c = '\n' then sep else c))

/-- WHATWG remove-dot-segments on a path's segment list; `acc` holds
already-emitted segments in reverse.  A trailing `.` or `..` leaves a
trailing empty segment (a trailing slash). -/
def remDots (acc : List (List Char)) : List (List Char) → List (List Char)
  | [] => acc.reverse
  | s :: rest =>
    if s = ['.'] then
      if rest.isEmpty then (([] : List Char) :: acc).reverse else remDots acc rest
    else if s = ['.', '.'] then
      if rest.isEmpty then (([] : List Char) :: acc.tail).reverse
      else remDots acc.tail rest
    else remDots (s :: acc) rest

/-- Split the part after the authority into path segments and query;
drops any fragment.  An empty path serializes as `/`, i.e. one empty
segment. -/
def parsePathQuery (l : List Char) : List (List Char) × Option (List Char) :=
  let noFrag := l.takeWhile (fun c => c ≠ '#')
  let path := noFrag.takeWhile (fun c => c ≠ '?')
  let query := if noFrag.any (fun c => c = '?') then
      some ((noFrag.dropWhile (fun c => c ≠ '?')).drop 1)
    else none
  let segs := match path with
    | '/' :: rest => splitOnChar '/' rest
    | [] => [[]]
    | other => splitOnChar '/' other
  (remDots [] segs, query)

/-- Parse `//host/path?query` given an already-parsed scheme. -/
def parseAfterScheme (scheme rest : List Char) : Option URLRec :=
  match rest with
  | '/' :: '/' :: r =>
    let auth := r.takeWhile (fun c => c ≠ '/' && c ≠ '?' && c ≠ '#')
    let tail := r.dropWhile (fun c => c ≠ '/' && c ≠ '?' && c ≠ '#')
    if validHost auth then
      let (segs, query) := parsePathQuery tail
      some ⟨scheme.map Char.toLower, auth.map Char.toLower, segs, query⟩
    else none
  | _ => none

/-- Models `new URL(s)` (absolute URL, no base): scheme, `://`,
authority, path, query.  Returns `none` where the built-in throws. -/
def parseURLList (l : List Char) : Option URLRec :=
  match l with
  | [] => none
  | c :: _ =>
    if isSchemeStart c then
      let scheme := l.takeWhile isSchemeChar
      match l.drop scheme.length with
      | ':' :: rest => parseAfterScheme scheme rest
      | _ => none
    else none

/-- Models `new URL(s)` on strings. -/
def parseURL (s : String) : Option URLRec :=
  parseURLList s.data

/-- Serialize a `URLRec` back to its `href` string (no fragment). -/
def hrefOf (u : URLRec) : String :=
  String.mk (u.scheme ++ [':', '/', '/'] ++ u.host
    ++ '/' :: List.intercalate ['/'] u.segs
    ++ (match u.query with | some q => '?' :: q | none => []))

/-- True when the input carries its own scheme (`alpha (alnum|+|-|.)* :`). -/
def startsWithScheme (l : List Char) : Bool :=
  match l with
  | [] => false
  | c :: _ =>
    isSchemeStart c &&
      (match l.drop (l.takeWhile isSchemeChar).length with
       | ':' :: _ => true
       | _ => false)

/-- Models `new URL(rel, base).href` — WHATWG relative-URL resolution
against an already-parsed base: absolute inputs, scheme-relative `//…`,
path-absolute `/…`, query-only `?…`, fragment-only and path-relative
references.  Returns `none` where the built-in throws. -/
def resolveURL (rel : List Char) (base : URLRec) : Option String :=
  match rel with
  | [] => some (hrefOf base)
  | '/' :: '/' :: _ => (parseAfterScheme base.scheme rel).map hrefOf
  | '/' :: _ =>
    let (segs, query) := parsePathQuery rel
    some (hrefOf { base with segs := segs, query := query })
  | '?' :: _ =>
    let (_, query) := parsePathQuery rel
    some (hrefOf { base with query := query })
  | '#' :: _ => some (hrefOf base)
  | _ =>
    if startsWithScheme rel then (parseURLList rel).map hrefOf
    else
      let noFrag := rel.takeWhile (fun c => c ≠ '#')
      let path := noFrag.takeWhile (fun c => c ≠ '?')
      let query := if noFrag.any (fun c => c = '?') then
          some ((noFrag.dropWhile (fun c => c ≠ '?')).drop 1)
        else none
      let merged := base.segs.dropLast ++ splitOnChar '/' path
      some (hrefOf { base with segs := remDots [] merged, query := query })

/-!
## The expiring cache store

`const cache = new Map<string, { data: string | Buffer; timestamp: number }>()`
is modelled as an insertion-ordered association list.  JS `Map`
semantics: `get` finds the unique entry for the key; `set` of an
existing key overwrites in place (keeping insertion position), `set` of
a new key appends; `delete` removes the entry; `keys().next().value` is
the earliest-inserted key; `size` is the number of entries. -/

/-- A cached payload: rewritten playlist text (`string`) or raw segment
bytes (`Buffer`). -/
inductive Payload
  | text (s : String)
  | bytes (b : List Nat)
deriving DecidableEq

/-- `{ data: string | Buffer; timestamp: number }` — `timestamp` in
milliseconds as produced by `Date.now()`. -/
structure CacheEntry where
  data : Payload
  timestamp : Nat
deriving DecidableEq

/-- The cache map, in insertion order (earliest first). -/
abbrev Cache := List (String × CacheEntry)

/-- JS `Map.get`. -/
def mapGet : Cache → String → Option CacheEntry
  | [], _ => none
  | (k, e) :: rest, key => if k = key then some e else mapGet rest key

/-- JS `Map.has`. -/
def mapContains : Cache → String → Bool
  | [], _ => false
  | (k, _) :: rest, key => k = key || mapContains rest key

/-- Overwrite the (unique) entry for `key` in place, keeping its
insertion position — the JS `Map.set` behaviour on a present key. -/
def mapReplace : Cache → String → CacheEntry → Cache
  | [], _, _ => []
  | (k, e) :: rest, key, entry =>
    if k = key then (key, entry) :: rest else (k, e) :: mapReplace rest key entry

/-- JS `Map.set`: overwrite in place when present, append when new. -/
def mapSet (m : Cache) (key : String) (entry : CacheEntry) : Cache :=
  if mapContains m key then mapReplace m key entry else m ++ [(key, entry)]

/-- JS `Map.delete`. -/
def mapDelete : Cache → String → Cache
  | [], _ => []
  | (k, e) :: rest, key =>
    if k = key then mapDelete rest key else (k, e) :: mapDelete rest key

/-- JS `Map.size`. -/
def mapSize (m : Cache) : Nat := m.length

/-- JS `cache.keys().next().value`: the earliest-inserted key. -/
def firstKey (m : Cache) : Option String := m.head?.map Prod.fst

/-- `const CACHE_TTL_M3U8 = 10 * 60 * 1000` — 10 minutes, in ms. -/
def CACHE_TTL_M3U8 : Nat := 10 * 60 * 1000

/-- `const CACHE_TTL_SEGMENT = 60 * 60 * 1000` — 1 hour, in ms. -/
def CACHE_TTL_SEGMENT : Nat := 60 * 60 * 1000

/-- The TTL the source selects for a key:
`url.endsWith(".m3u8") ? CACHE_TTL_M3U8 : CACHE_TTL_SEGMENT`. -/
def ttlFor (url : String) : Nat :=
  if strEndsWith url ".m3u8" then CACHE_TTL_M3U8 else CACHE_TTL_SEGMENT

/-- `getCached(url)`, with the mutable map and `Date.now()` made
explicit: returns the looked-up payload and the store after the call.
`Date.now() - cached.timestamp > ttl` is modelled with truncated `Nat`
subtraction: for `now ≥ timestamp` this is the JS comparison, and for
`now < timestamp` both give "not expired" (a negative number, resp. 0,
never exceeds the positive TTL). -/
def getCached (cache : Cache) (url : String) (now : Nat) : Option Payload × Cache :=
  match mapGet cache url with
  | none => (none, cache)
  | some cached =>
    let ttl := ttlFor url
    if now - cached.timestamp > ttl then (none, mapDelete cache url)
    else (some cached.data, cache)

/-- `setCache(url, data)`, with the map and `Date.now()` explicit.
Eviction runs when `cache.size > 1000` (strictly greater), before the
insert; `if (firstKey)` skips the delete when the first key is the
empty string (falsy in JS) — the route never stores an empty key, but
the guard is part of the function. -/
def setCache (cache : Cache) (url : String) (data : Payload) (now : Nat) : Cache :=
  let cache1 :=
    if mapSize cache > 1000 then
      match firstKey cache with
      | some k => if k = "" then cache else mapDelete cache k
      | none => cache
    else cache
  mapSet cache1 url ⟨data, now⟩

/-!
## The playlist rewriter and the route handler -/

/-- The body of the `.map((line) => …)` in `rewritePlaylistUrls`: keep
directive/blank lines, rewrite resolvable URI lines into
`?url=…&referer=…`, pass through lines whose resolution throws. -/
def rewriteLine (base : URLRec) (referer : String) (line : String) : String :=
  let trimmed := strTrim line
  if strStartsWith trimmed "#" || trimmed == "" then line
  else
    match resolveURL trimmed.data base with
    | some resolvedUrl =>
      "?url=" ++ encodeURIComponent resolvedUrl ++ "&referer=" ++ encodeURIComponent referer
    | none => line

/-- `rewritePlaylistUrls(playlistText, baseUrl, referer)`.  The
`new URL(baseUrl)` at the top is outside any try/catch: when the base
does not parse the function throws `TypeError("Invalid URL")`, modelled
as `Except.error "Invalid URL"`; otherwise it returns the line-mapped
text. -/
def rewritePlaylistUrls (playlistText baseUrl referer : String) : Except String String :=
  match parseURL baseUrl with
  | none => .error "Invalid URL"
  | some base =>
    .ok (joinLines ((splitLines playlistText).map (rewriteLine base referer)))

/-- Outcome of `fetchWithCustomReferer(url, referer)` as observed by the
handler: either a thrown exception (network failure, invalid URL,
body-read failure), or a response with its status plus its `text()` and
`arrayBuffer()` views (the handler reads exactly one of the two).  The
outbound headers the fetcher sets (User-Agent, Referer, Origin) do not
influence the handler's control flow, so the outcome is an oracle
parameter of the model. -/
inductive FetchOutcome
  | success (status : Nat) (bodyText : String) (bodyBytes : List Nat)
  | failure (msg : String)
deriving DecidableEq

/-- WHATWG `Response.ok`: status in the inclusive range 200–299. -/
def statusOk (status : Nat) : Bool := 200 ≤ status && status ≤ 299

/-- What the handler sends back, plus the observable effects: whether
the upstream fetcher was invoked and the cache state after the request.
Headers the source never sets on a path are `none` (Hono's `c.text`
error responses set only a text content type, not modelled). -/
structure HandlerResult where
  status : Nat
  body : Payload
  contentType : Option String
  cacheControl : Option String
  corsAllowOrigin : Option String
  fetched : Bool
  cacheAfter : Cache
deriving DecidableEq

/-- `c.req.query("referer") || "https://megacloud.club/"` — the absent
parameter and the empty string (both falsy) fall back to the hardcoded
origin. -/
def effectiveReferer (refererParam : Option String) : String :=
  match refererParam with
  | some r => if r = "" then "https://megacloud.club/" else r
  | none => "https://megacloud.club/"

/-- JS truthiness of the cached `string | Buffer` payload, as tested by
the route's `if (cached)`: the empty string is falsy, any other string
is truthy, and a `Buffer` is an object and hence always truthy (even
when empty). -/
def payloadTruthy : Payload → Bool
  | .text s => !(s == "")
  | .bytes _ => true

/-- The `proxyRouter.get("/")` handler.  `c.req.query("url")` /
`c.req.query("referer")` are `Option String` (`none` = absent);
`referer || "https://megacloud.club/"` and `if (!url)` treat the empty
string as falsy.  The hit test is the source's `if (cached)` — a JS
truthiness check, so a cached **empty-string** payload (an empty
rewritten playlist) falls through to the fetch path even though
`getCached` returned it (and `getCached`'s lazy-expiry side effect on
the store stands either way).  The upstream fetch result and
`Date.now()` are explicit parameters. -/
def handleProxy (cache : Cache) (urlParam refererParam : Option String) (now : Nat)
    (upstream : FetchOutcome) : HandlerResult :=
  let referer := effectiveReferer refererParam
  match urlParam with
  | none => ⟨400, .text "URL required", none, none, none, false, cache⟩
  | some url =>
    if url = "" then ⟨400, .text "URL required", none, none, none, false, cache⟩
    else
      let isM3U8 := strEndsWith url ".m3u8"
      match getCached cache url now with
      | (cached, cache1) =>
        let missResult : HandlerResult :=
          match upstream with
          | .failure msg =>
            ⟨500, .text ("Proxy Error: " ++ msg), none, none, none, true, cache1⟩
          | .success status bodyText bodyBytes =>
            if !statusOk status then
              ⟨status, .text ("Error fetching remote resource: " ++ toString status),
                none, none, none, true, cache1⟩
            else if isM3U8 then
              match rewritePlaylistUrls bodyText url referer with
              | .error msg =>
                ⟨500, .text ("Proxy Error: " ++ msg), none, none, none, true, cache1⟩
              | .ok modifiedPlaylist =>
                ⟨200, .text modifiedPlaylist, some "application/vnd.apple.mpegurl",
                  some "public, max-age=600", some "*", true,
                  setCache cache1 url (.text modifiedPlaylist) now⟩
            else
              ⟨200, .bytes bodyBytes, some "video/mp2t",
                some "public, max-age=31536000", some "*", true,
                setCache cache1 url (.bytes bodyBytes) now⟩
        match cached with
        | some payload =>
          if payloadTruthy payload then
            let contentType :=
              if isM3U8 then "application/vnd.apple.mpegurl" else "video/mp2t"
            let cacheControl :=
              if isM3U8 then "public, max-age=600" else "public, max-age=31536000"
            ⟨200, payload, some contentType, some cacheControl, some "*", false, cache1⟩
          else missResult
        | none => missResult

/-- The outcome of the route's `if (cached)` test for a given lookup:
true exactly when the lookup finds an unexpired entry whose payload is
JS-truthy. -/
def lookupHit (cache : Cache) (url : String) (now : Nat) : Bool :=
  match (getCached cache url now).1 with
  | some p => payloadTruthy p
  | none => false

/-!
## Association-list (JS `Map`) lemmas -/

theorem mapGet_delete_ne (m : Cache) (k u : String) (h : k ≠ u) :
    mapGet (mapDelete m u) k = mapGet m k := by
  induction m with
  | nil => rfl
  | cons p rest ih =>
    obtain ⟨k', e'⟩ := p
    by_cases hk : k' = u
    · simp [mapDelete, hk, mapGet, Ne.symm h, ih]
    · by_cases hk2 : k' = k <;> simp [mapDelete, hk, mapGet, hk2, h, ih]

theorem mapGet_delete_self (m : Cache) (u : String) :
    mapGet (mapDelete m u) u = none := by
  induction m with
  | nil => rfl
  | cons p rest ih =>
    obtain ⟨k', e'⟩ := p
    by_cases hk : k' = u <;> simp [mapDelete, hk, mapGet, ih]

theorem mapGet_delete_sub (m : Cache) (u k : String) (e : CacheEntry)
    (h : mapGet (mapDelete m u) k = some e) : mapGet m k = some e := by
  by_cases hk : k = u
  · rw [hk, mapGet_delete_self] at h; cases h
  · rwa [mapGet_delete_ne m k u hk] at h

theorem mapContains_append (a b : Cache) (k : String) :
    mapContains (a ++ b) k = (mapContains a k || mapContains b k) := by
  induction a with
  | nil => simp [mapContains]
  | cons p rest ih =>
    obtain ⟨k', e'⟩ := p
    by_cases hk : k' = k <;> simp [mapContains, hk, ih]

theorem mapGet_append_of_not_contains (a b : Cache) (k : String)
    (h : mapContains a k = false) : mapGet (a ++ b) k = mapGet b k := by
  induction a with
  | nil => rfl
  | cons p rest ih =>
    obtain ⟨k', e'⟩ := p
    simp [mapContains] at h
    simp [mapGet, h.1, ih h.2]

theorem mapGet_eq_none_of_not_contains (m : Cache) (k : String)
    (h : mapContains m k = false) : mapGet m k = none := by
  induction m with
  | nil => rfl
  | cons p rest ih =>
    obtain ⟨k', e'⟩ := p
    simp [mapContains] at h
    simp [mapGet, h.1, ih h.2]

theorem mapContains_of_mapGet (m : Cache) (k : String) (e : CacheEntry)
    (h : mapGet m k = some e) : mapContains m k = true := by
  induction m with
  | nil => cases h
  | cons p rest ih =>
    obtain ⟨k', e'⟩ := p
    by_cases hk : k' = k
    · simp [mapContains, hk]
    · simp [mapGet, hk] at h
      simp [mapContains, hk, ih h]

/-!
## C1 and C9 -/

/-- Claim C1: `get(key)` returns the stored payload when an entry is present
and `now - insertedAt ≤ ttl(key)` — leaving the store untouched — and
deletes the entry and returns absent when `now - insertedAt > ttl(key)`;
`ttl(key)` is 600 s (600 000 ms) for keys ending in `.m3u8` and 3600 s
(3 600 000 ms) otherwise; a lookup of an absent key changes nothing. -/
theorem getCached_spec (cache : Cache) (key : String) (now : Nat) :
    (strEndsWith key ".m3u8" = true → ttlFor key = 600 * 1000) ∧
    (strEndsWith key ".m3u8" = false → ttlFor key = 3600 * 1000) ∧
    (mapGet cache key = none → getCached cache key now = (none, cache)) ∧
    ∀ e, mapGet cache key = some e →
      (now - e.timestamp ≤ ttlFor key →
        getCached cache key now = (some e.data, cache)) ∧
      (now - e.timestamp > ttlFor key →
        getCached cache key now = (none, mapDelete cache key)) := by
  refine ⟨?_, ?_, ?_, ?_⟩
  · intro h; simp [ttlFor, h, CACHE_TTL_M3U8]
  · intro h; simp [ttlFor, h, CACHE_TTL_SEGMENT]
  · intro h; simp [getCached, h]
  · intro e he
    constructor
    · intro hle
      simp [getCached, he, Nat.not_lt.mpr hle]
    · intro hgt
      simp [getCached, he, hgt]

/-- Closed instance of `getCached_spec`: a fresh `.m3u8` entry hits at
exactly its TTL and is deleted one millisecond later; an absent key is a
clean miss. -/
theorem getCached_spec_witness :
    getCached [("a.m3u8", ⟨.text "p", 0⟩)] "a.m3u8" 600000 =
      (some (.text "p"), [("a.m3u8", ⟨.text "p", 0⟩)]) ∧
    getCached [("a.m3u8", ⟨.text "p", 0⟩)] "a.m3u8" 600001 = (none, []) ∧
    getCached [] "a.m3u8" 7 = (none, []) := by
  refine ⟨?_, ?_, ?_⟩
  · exact ((getCached_spec [("a.m3u8", ⟨.text "p", 0⟩)] "a.m3u8" 600000).2.2.2
      ⟨.text "p", 0⟩ rfl).1 (by decide)
  · exact ((getCached_spec [("a.m3u8", ⟨.text "p", 0⟩)] "a.m3u8" 600001).2.2.2
      ⟨.text "p", 0⟩ rfl).2 (by decide)
  · exact (getCached_spec [] "a.m3u8" 7).2.2.1 rfl

/-- Claim C9: a request with no `url` query parameter is answered 400 /
`"URL required"`, with no upstream fetch and the cache untouched —
whatever the cache, referer, time and would-be upstream outcome. -/
theorem missing_url_400 (cache : Cache) (refererParam : Option String) (now : Nat)
    (upstream : FetchOutcome) :
    handleProxy cache none refererParam now upstream =
      ⟨400, .text "URL required", none, none, none, false, cache⟩ := by
  rfl

theorem mapGet_replace_self (m : Cache) (k : String) (e : CacheEntry)
    (h : mapContains m k = true) : mapGet (mapReplace m k e) k = some e := by
  induction m with
  | nil => cases h
  | cons p rest ih =>
    obtain ⟨k', e'⟩ := p
    by_cases hk : k' = k
    · simp [mapReplace, hk, mapGet]
    · simp [mapContains, hk] at h
      simp [mapReplace, hk, mapGet, ih h]

theorem mapGet_replace_ne (m : Cache) (k u : String) (e : CacheEntry) (h : k ≠ u) :
    mapGet (mapReplace m u e) k = mapGet m k := by
  induction m with
  | nil => rfl
  | cons p rest ih =>
    obtain ⟨k', e'⟩ := p
    by_cases hk : k' = u
    · subst hk
      simp [mapReplace, mapGet, Ne.symm h]
    · by_cases hk2 : k' = k <;> simp [mapReplace, hk, mapGet, hk2, h, ih]

theorem keys_replace (m : Cache) (k : String) (e : CacheEntry) :
    (mapReplace m k e).map Prod.fst = m.map Prod.fst := by
  induction m with
  | nil => rfl
  | cons p rest ih =>
    obtain ⟨k', e'⟩ := p
    by_cases hk : k' = k <;> simp [mapReplace, hk, ih]

theorem mapGet_set_self (m : Cache) (k : String) (e : CacheEntry) :
    mapGet (mapSet m k e) k = some e := by
  unfold mapSet
  by_cases h : mapContains m k = true
  · simp [h, mapGet_replace_self m k e h]
  · simp at h
    rw [if_neg (by simp [h]), mapGet_append_of_not_contains m _ k h]
    simp [mapGet]

theorem mapGet_set_ne (m : Cache) (k u : String) (e : CacheEntry) (h : k ≠ u) :
    mapGet (mapSet m u e) k = mapGet m k := by
  unfold mapSet
  by_cases hc : mapContains m u = true
  · simp [hc, mapGet_replace_ne m k u e h]
  · simp at hc
    rw [if_neg (by simp [hc])]
    induction m with
    | nil => simp [mapGet, Ne.symm h]
    | cons p rest ih =>
      obtain ⟨k', e'⟩ := p
      simp [mapContains] at hc
      by_cases hk : k' = k <;> simp [mapGet, hk, ih hc.2]

theorem mapGet_setCache_self (m : Cache) (url : String) (d : Payload) (now : Nat) :
    mapGet (setCache m url d now) url = some ⟨d, now⟩ := by
  unfold setCache
  exact mapGet_set_self _ url ⟨d, now⟩

/-!
## `getCached` path lemmas -/

theorem getCached_hit (cache : Cache) (url : String) (now : Nat) (e : CacheEntry)
    (hget : mapGet cache url = some e) (hfresh : now - e.timestamp ≤ ttlFor url) :
    getCached cache url now = (some e.data, cache) := by
  simp [getCached, hget, Nat.not_lt.mpr hfresh]

theorem getCached_absent (cache : Cache) (url : String) (now : Nat)
    (hget : mapGet cache url = none) : getCached cache url now = (none, cache) := by
  simp [getCached, hget]

theorem getCached_expired (cache : Cache) (url : String) (now : Nat) (e : CacheEntry)
    (hget : mapGet cache url = some e) (hold : now - e.timestamp > ttlFor url) :
    getCached cache url now = (none, mapDelete cache url) := by
  simp [getCached, hget, hold]

theorem getCached_inv_some (cache : Cache) (url : String) (now : Nat)
    (p : Payload) (c1 : Cache) (h : getCached cache url now = (some p, c1)) :
    ∃ e, mapGet cache url = some e ∧ e.data = p ∧ c1 = cache ∧
      now - e.timestamp ≤ ttlFor url := by
  unfold getCached at h
  rcases hg : mapGet cache url with _ | e
  · rw [hg] at h; cases h
  · rw [hg] at h
    by_cases hexp : now - e.timestamp > ttlFor url
    · simp [hexp] at h
    · simp [hexp] at h
      exact ⟨e, rfl, h.1, h.2.symm, Nat.not_lt.mp hexp⟩

theorem getCached_snd (cache : Cache) (url : String) (now : Nat) :
    (getCached cache url now).2 = cache ∨
      (getCached cache url now).2 = mapDelete cache url := by
  unfold getCached
  rcases mapGet cache url with _ | e
  · exact .inl rfl
  · by_cases hexp : now - e.timestamp > ttlFor url <;> simp [hexp]

/-!
## Handler path lemmas -/

theorem handler_hit (cache : Cache) (url : String) (ref : Option String) (now : Nat)
    (upstream : FetchOutcome) (e : CacheEntry) (hne : url ≠ "")
    (hget : mapGet cache url = some e) (hfresh : now - e.timestamp ≤ ttlFor url)
    (htr : payloadTruthy e.data = true) :
    handleProxy cache (some url) ref now upstream =
      ⟨200, e.data,
        some (if strEndsWith url ".m3u8" then "application/vnd.apple.mpegurl"
              else "video/mp2t"),
        some (if strEndsWith url ".m3u8" then "public, max-age=600"
              else "public, max-age=31536000"),
        some "*", false, cache⟩ := by
  simp [handleProxy, hne, getCached_hit cache url now e hget hfresh, htr]

theorem lookupHit_eq_false_of_none (cache : Cache) (url : String) (now : Nat)
    (h : (getCached cache url now).1 = none) : lookupHit cache url now = false := by
  unfold lookupHit
  rw [h]

theorem handler_fetch_throw' (cache : Cache) (url : String) (ref : Option String)
    (now : Nat) (msg : String) (hne : url ≠ "")
    (hmiss : lookupHit cache url now = false) :
    handleProxy cache (some url) ref now (.failure msg) =
      ⟨500, .text ("Proxy Error: " ++ msg), none, none, none, true,
        (getCached cache url now).2⟩ := by
  unfold lookupHit at hmiss
  rcases hg : getCached cache url now with ⟨cached, c1⟩
  rw [hg] at hmiss
  rcases cached with _ | p
  · simp [handleProxy, hne, hg]
  · have hp : payloadTruthy p = false := hmiss
    simp [handleProxy, hne, hg, hp]

theorem handler_fetch_throw (cache : Cache) (url : String) (ref : Option String)
    (now : Nat) (msg : String) (hne : url ≠ "")
    (hmiss : (getCached cache url now).1 = none) :
    handleProxy cache (some url) ref now (.failure msg) =
      ⟨500, .text ("Proxy Error: " ++ msg), none, none, none, true,
        (getCached cache url now).2⟩ :=
  handler_fetch_throw' cache url ref now msg hne
    (lookupHit_eq_false_of_none cache url now hmiss)

theorem handler_upstream_error' (cache : Cache) (url : String) (ref : Option String)
    (now s : Nat) (text : String) (bytes : List Nat) (hne : url ≠ "")
    (hmiss : lookupHit cache url now = false) (hbad : statusOk s = false) :
    handleProxy cache (some url) ref now (.success s text bytes) =
      ⟨s, .text ("Error fetching remote resource: " ++ toString s), none, none, none,
        true, (getCached cache url now).2⟩ := by
  unfold lookupHit at hmiss
  rcases hg : getCached cache url now with ⟨cached, c1⟩
  rw [hg] at hmiss
  rcases cached with _ | p
  · simp [handleProxy, hne, hg, hbad]
  · have hp : payloadTruthy p = false := hmiss
    simp [handleProxy, hne, hg, hp, hbad]

theorem handler_upstream_error (cache : Cache) (url : String) (ref : Option String)
    (now s : Nat) (text : String) (bytes : List Nat) (hne : url ≠ "")
    (hmiss : (getCached cache url now).1 = none) (hbad : statusOk s = false) :
    handleProxy cache (some url) ref now (.success s text bytes) =
      ⟨s, .text ("Error fetching remote resource: " ++ toString s), none, none, none,
        true, (getCached cache url now).2⟩ :=
  handler_upstream_error' cache url ref now s text bytes hne
    (lookupHit_eq_false_of_none cache url now hmiss) hbad

theorem handler_rewrite_throw' (cache : Cache) (url : String) (ref : Option String)
    (now s : Nat) (text : String) (bytes : List Nat) (hne : url ≠ "")
    (hmiss : lookupHit cache url now = false) (hok : statusOk s = true)
    (hm3u8 : strEndsWith url ".m3u8" = true) (hparse : parseURL url = none) :
    handleProxy cache (some url) ref now (.success s text bytes) =
      ⟨500, .text "Proxy Error: Invalid URL", none, none, none, true,
        (getCached cache url now).2⟩ := by
  unfold lookupHit at hmiss
  rcases hg : getCached cache url now with ⟨cached, c1⟩
  rw [hg] at hmiss
  rcases cached with _ | p
  · simp [handleProxy, hne, hg, hok, hm3u8, rewritePlaylistUrls, hparse]
  · have hp : payloadTruthy p = false := hmiss
    simp [handleProxy, hne, hg, hp, hok, hm3u8, rewritePlaylistUrls, hparse]

theorem handler_rewrite_throw (cache : Cache) (url : String) (ref : Option String)
    (now s : Nat) (text : String) (bytes : List Nat) (hne : url ≠ "")
    (hmiss : (getCached cache url now).1 = none) (hok : statusOk s = true)
    (hm3u8 : strEndsWith url ".m3u8" = true) (hparse : parseURL url = none) :
    handleProxy cache (some url) ref now (.success s text bytes) =
      ⟨500, .text "Proxy Error: Invalid URL", none, none, none, true,
        (getCached cache url now).2⟩ :=
  handler_rewrite_throw' cache url ref now s text bytes hne
    (lookupHit_eq_false_of_none cache url now hmiss) hok hm3u8 hparse

theorem handler_miss_m3u8' (cache : Cache) (url : String) (ref : Option String)
    (now s : Nat) (text : String) (bytes : List Nat) (b : URLRec) (hne : url ≠ "")
    (hmiss : lookupHit cache url now = false) (hok : statusOk s = true)
    (hm3u8 : strEndsWith url ".m3u8" = true) (hparse : parseURL url = some b) :
    handleProxy cache (some url) ref now (.success s text bytes) =
      ⟨200,
        .text (joinLines ((splitLines text).map
          (rewriteLine b (effectiveReferer ref)))),
        some "application/vnd.apple.mpegurl", some "public, max-age=600", some "*",
        true,
        setCache (getCached cache url now).2 url
          (.text (joinLines ((splitLines text).map
            (rewriteLine b (effectiveReferer ref))))) now⟩ := by
  unfold lookupHit at hmiss
  rcases hg : getCached cache url now with ⟨cached, c1⟩
  rw [hg] at hmiss
  rcases cached with _ | p
  · simp [handleProxy, hne, hg, hok, hm3u8, rewritePlaylistUrls, hparse]
  · have hp : payloadTruthy p = false := hmiss
    simp [handleProxy, hne, hg, hp, hok, hm3u8, rewritePlaylistUrls, hparse]

theorem handler_miss_m3u8 (cache : Cache) (url : String) (ref : Option String)
    (now s : Nat) (text : String) (bytes : List Nat) (b : URLRec) (hne : url ≠ "")
    (hmiss : (getCached cache url now).1 = none) (hok : statusOk s = true)
    (hm3u8 : strEndsWith url ".m3u8" = true) (hparse : parseURL url = some b) :
    handleProxy cache (some url) ref now (.success s text bytes) =
      ⟨200,
        .text (joinLines ((splitLines text).map
          (rewriteLine b (effectiveReferer ref)))),
        some "application/vnd.apple.mpegurl", some "public, max-age=600", some "*",
        true,
        setCache (getCached cache url now).2 url
          (.text (joinLines ((splitLines text).map
            (rewriteLine b (effectiveReferer ref))))) now⟩ :=
  handler_miss_m3u8' cache url ref now s text bytes b hne
    (lookupHit_eq_false_of_none cache url now hmiss) hok hm3u8 hparse

theorem handler_miss_segment' (cache : Cache) (url : String) (ref : Option String)
    (now s : Nat) (text : String) (bytes : List Nat) (hne : url ≠ "")
    (hmiss : lookupHit cache url now = false) (hok : statusOk s = true)
    (hm3u8 : strEndsWith url ".m3u8" = false) :
    handleProxy cache (some url) ref now (.success s text bytes) =
      ⟨200, .bytes bytes, some "video/mp2t", some "public, max-age=31536000", some "*",
        true, setCache (getCached cache url now).2 url (.bytes bytes) now⟩ := by
  unfold lookupHit at hmiss
  rcases hg : getCached cache url now with ⟨cached, c1⟩
  rw [hg] at hmiss
  rcases cached with _ | p
  · simp [handleProxy, hne, hg, hok, hm3u8]
  · have hp : payloadTruthy p = false := hmiss
    simp [handleProxy, hne, hg, hp, hok, hm3u8]

theorem handler_miss_segment (cache : Cache) (url : String) (ref : Option String)
    (now s : Nat) (text : String) (bytes : List Nat) (hne : url ≠ "")
    (hmiss : (getCached cache url now).1 = none) (hok : statusOk s = true)
    (hm3u8 : strEndsWith url ".m3u8" = false) :
    handleProxy cache (some url) ref now (.success s text bytes) =
      ⟨200, .bytes bytes, some "video/mp2t", some "public, max-age=31536000", some "*",
        true, setCache (getCached cache url now).2 url (.bytes bytes) now⟩ :=
  handler_miss_segment' cache url ref now s text bytes hne
    (lookupHit_eq_false_of_none cache url now hmiss) hok hm3u8

theorem handler_miss_200_entry (cache : Cache) (url : String) (ref : Option String)
    (now : Nat) (u : FetchOutcome) (hne : url ≠ "")
    (hmiss : lookupHit cache url now = false)
    (h200 : (handleProxy cache (some url) ref now u).status = 200) :
    ∃ e, mapGet (handleProxy cache (some url) ref now u).cacheAfter url = some e ∧
      e.data = (handleProxy cache (some url) ref now u).body := by
  cases u with
  | failure msg =>
    rw [handler_fetch_throw' cache url ref now msg hne hmiss] at h200 ⊢
    cases h200
  | success s text bytes =>
    by_cases hok : statusOk s = true
    · by_cases hm : strEndsWith url ".m3u8" = true
      · rcases hp : parseURL url with _ | b
        · rw [handler_rewrite_throw' cache url ref now s text bytes hne hmiss
            hok hm hp] at h200 ⊢
          cases h200
        · rw [handler_miss_m3u8' cache url ref now s text bytes b hne hmiss
            hok hm hp]
          exact ⟨_, mapGet_setCache_self _ url _ now, rfl⟩
      · have hm' : strEndsWith url ".m3u8" = false := by simpa using hm
        rw [handler_miss_segment' cache url ref now s text bytes hne hmiss hok hm']
        exact ⟨_, mapGet_setCache_self _ url _ now, rfl⟩
    · have hbad : statusOk s = false := by simpa using hok
      rw [handler_upstream_error' cache url ref now s text bytes hne hmiss hbad]
        at h200 ⊢
      simp at h200
      subst h200
      cases hbad

theorem handler_200_entry (cache : Cache) (url : String) (ref : Option String)
    (now : Nat) (u : FetchOutcome) (hne : url ≠ "")
    (h200 : (handleProxy cache (some url) ref now u).status = 200) :
    ∃ e, mapGet (handleProxy cache (some url) ref now u).cacheAfter url = some e ∧
      e.data = (handleProxy cache (some url) ref now u).body := by
  cases hl : lookupHit cache url now with
  | false => exact handler_miss_200_entry cache url ref now u hne hl h200
  | true =>
    unfold lookupHit at hl
    rcases hg : getCached cache url now with ⟨cached, c1⟩
    rw [hg] at hl
    rcases cached with _ | p
    · cases hl
    · have htr : payloadTruthy p = true := hl
      obtain ⟨e, hget, hdata, hc1, hfresh⟩ := getCached_inv_some cache url now p c1 hg
      rw [handler_hit cache url ref now u e hne hget hfresh
        (by rw [hdata]; exact htr)]
      exact ⟨e, hget, rfl⟩

/-!
## C7 -/

/-- Claim C7 counterexample: a cache hit for the segment key `"seg.ts"`
carries `Cache-Control: public, max-age=31536000`, not the
`max-age=3600` that the §4.1 TTL policy (3600 s for non-playlist keys)
would dictate. -/
theorem hit_maxage_counterexample :
    (handleProxy [("seg.ts", ⟨Payload.bytes [1], 0⟩)] (some "seg.ts") none 0
        (.failure "unused")).cacheControl = some "public, max-age=31536000" ∧
    ("public, max-age=31536000" : String) ≠ "public, max-age=3600" := by
  exact ⟨rfl, by decide⟩

/-- Claim C7 amended: on every cache hit — an unexpired entry whose
payload passes the route's `if (cached)` JS truthiness test (any Buffer,
or a nonempty string) — the response has Content-Type
`application/vnd.apple.mpegurl` and `Cache-Control: public, max-age=600`
if the url ends with `.m3u8`, and `video/mp2t` with
`Cache-Control: public, max-age=31536000` (one year — not the segment
TTL of 3600 s) otherwise; the payload is served as stored with status
200, no upstream fetch, and the store unchanged. -/
theorem hit_response_headers (cache : Cache) (url : String) (ref : Option String)
    (now : Nat) (upstream : FetchOutcome) (e : CacheEntry) (hne : url ≠ "")
    (hget : mapGet cache url = some e) (hfresh : now - e.timestamp ≤ ttlFor url)
    (htr : payloadTruthy e.data = true) :
    handleProxy cache (some url) ref now upstream =
      ⟨200, e.data,
        some (if strEndsWith url ".m3u8" then "application/vnd.apple.mpegurl"
              else "video/mp2t"),
        some (if strEndsWith url ".m3u8" then "public, max-age=600"
              else "public, max-age=31536000"),
        some "*", false, cache⟩ :=
  handler_hit cache url ref now upstream e hne hget hfresh htr

/-- Closed instance of `hit_response_headers`: one playlist hit and one
segment hit with their respective header pairs. -/
theorem hit_response_headers_witness :
    handleProxy [("a.m3u8", ⟨Payload.text "p", 0⟩)] (some "a.m3u8") none 5
        (.failure "u") =
      ⟨200, .text "p", some "application/vnd.apple.mpegurl",
        some "public, max-age=600", some "*", false,
        [("a.m3u8", ⟨Payload.text "p", 0⟩)]⟩ ∧
    handleProxy [("s.ts", ⟨Payload.bytes [9], 0⟩)] (some "s.ts") none 5
        (.failure "u") =
      ⟨200, .bytes [9], some "video/mp2t", some "public, max-age=31536000", some "*",
        false, [("s.ts", ⟨Payload.bytes [9], 0⟩)]⟩ := by
  constructor
  · exact (hit_response_headers [("a.m3u8", ⟨Payload.text "p", 0⟩)] "a.m3u8" none 5
      (.failure "u") ⟨Payload.text "p", 0⟩ (by decide) rfl (by decide)
      (by decide)).trans (by decide)
  · exact (hit_response_headers [("s.ts", ⟨Payload.bytes [9], 0⟩)] "s.ts" none 5
      (.failure "u") ⟨Payload.bytes [9], 0⟩ (by decide) rfl (by decide)
      (by decide)).trans (by decide)

/-!
## C10 -/

/-- Claim C10: playlist classification is an exact, case-sensitive suffix test
on the raw url — `"index.m3u8?token=x"` and `"seg.M3U8"` both fail it —
and any url failing it gets the 3 600 000 ms (3600 s) segment TTL on
lookup, an un-rewritten body on a fetched miss, and
`video/mp2t` / `public, max-age=31536000` headers on both miss and hit
responses (a hit being an unexpired entry whose payload passes the
`if (cached)` truthiness test — always the case for the Buffers the
route stores under non-playlist keys). -/
theorem segment_treatment (url : String) (hne : url ≠ "")
    (hsuf : strEndsWith url ".m3u8" = false) :
    ttlFor url = 3600 * 1000 ∧
    strEndsWith "index.m3u8?token=x" ".m3u8" = false ∧
    strEndsWith "seg.M3U8" ".m3u8" = false ∧
    (∀ (cache : Cache) (ref : Option String) (now s : Nat) (text : String)
      (bytes : List Nat), (getCached cache url now).1 = none → statusOk s = true →
      handleProxy cache (some url) ref now (.success s text bytes) =
        ⟨200, .bytes bytes, some "video/mp2t", some "public, max-age=31536000",
          some "*", true, setCache (getCached cache url now).2 url (.bytes bytes) now⟩) ∧
    (∀ (cache : Cache) (ref : Option String) (now : Nat) (upstream : FetchOutcome)
      (e : CacheEntry), mapGet cache url = some e → now - e.timestamp ≤ ttlFor url →
      payloadTruthy e.data = true →
      handleProxy cache (some url) ref now upstream =
        ⟨200, e.data, some "video/mp2t", some "public, max-age=31536000", some "*",
          false, cache⟩) := by
  refine ⟨by simp [ttlFor, hsuf, CACHE_TTL_SEGMENT], by decide, by decide, ?_, ?_⟩
  · intro cache ref now s text bytes hmiss hok
    exact handler_miss_segment cache url ref now s text bytes hne hmiss hok hsuf
  · intro cache ref now upstream e hget hfresh htr
    exact (handler_hit cache url ref now upstream e hne hget hfresh htr).trans
      (by simp [hsuf])

/-- Closed instance of `segment_treatment` at
`url = "index.m3u8?token=x"`: the query string defeats the suffix test,
so the key gets the one-hour segment TTL. -/
theorem segment_treatment_witness :
    ttlFor "index.m3u8?token=x" = 3600 * 1000 :=
  (segment_treatment "index.m3u8?token=x" (by decide) (by decide)).1

/-!
## C5 -/

/-- Claim C5 counterexample: a request whose lookup lazily deletes an expired
entry and whose fetch then throws answers 500 but does **not** leave the
cache unchanged — the expired entry for the url is gone. -/
theorem failed_request_cache_counterexample :
    (handleProxy [("u.ts", ⟨Payload.bytes [1], 0⟩)] (some "u.ts") none 3600001
        (.failure "boom")).status = 500 ∧
    (handleProxy [("u.ts", ⟨Payload.bytes [1], 0⟩)] (some "u.ts") none 3600001
        (.failure "boom")).cacheAfter = [] ∧
    ([] : Cache) ≠ [("u.ts", ⟨Payload.bytes [1], 0⟩)] := by
  exact ⟨rfl, rfl, by decide⟩

/-- Claim C5 amended: on a cache miss a non-2xx upstream response is
propagated with the upstream's status code and a textual error body, a
thrown fetch is answered 500 with the error message, and a playlist
whose rewrite throws (unparsable base url) is answered 500 with
`"Invalid URL"`; in every failure case nothing is written to the cache —
the cache after the request is exactly the post-lookup store (which per
§4.1 may have lazily dropped the expired entry for this url), every
surviving entry was already present before the request, and when the url
had no entry at all the cache is exactly unchanged. -/
theorem failure_no_cache_write (cache : Cache) (url : String) (ref : Option String)
    (now : Nat) (hne : url ≠ "") (hmiss : (getCached cache url now).1 = none) :
    (∀ (s : Nat) (text : String) (bytes : List Nat), statusOk s = false →
      handleProxy cache (some url) ref now (.success s text bytes) =
        ⟨s, .text ("Error fetching remote resource: " ++ toString s), none, none, none,
          true, (getCached cache url now).2⟩) ∧
    (∀ msg, handleProxy cache (some url) ref now (.failure msg) =
      ⟨500, .text ("Proxy Error: " ++ msg), none, none, none, true,
        (getCached cache url now).2⟩) ∧
    (∀ (s : Nat) (text : String) (bytes : List Nat), statusOk s = true →
      strEndsWith url ".m3u8" = true → parseURL url = none →
      handleProxy cache (some url) ref now (.success s text bytes) =
        ⟨500, .text "Proxy Error: Invalid URL", none, none, none, true,
          (getCached cache url now).2⟩) ∧
    (∀ (k : String) (e : CacheEntry), mapGet (getCached cache url now).2 k = some e →
      mapGet cache k = some e) ∧
    (mapGet cache url = none → (getCached cache url now).2 = cache) := by
  refine ⟨?_, ?_, ?_, ?_, ?_⟩
  · intro s text bytes hbad
    exact handler_upstream_error cache url ref now s text bytes hne hmiss hbad
  · intro msg
    exact handler_fetch_throw cache url ref now msg hne hmiss
  · intro s text bytes hok hm hp
    exact handler_rewrite_throw cache url ref now s text bytes hne hmiss hok hm hp
  · intro k e hk
    rcases getCached_snd cache url now with h | h
    · rwa [h] at hk
    · rw [h] at hk
      exact mapGet_delete_sub cache url k e hk
  · intro habs
    rw [getCached_absent cache url now habs]

/-- Closed instance of `failure_no_cache_write`: a 404 upstream answer
on an empty cache is propagated as 404 and leaves the cache empty. -/
theorem failure_no_cache_write_witness :
    handleProxy [] (some "u.ts") none 0 (.success 404 "nf" [1]) =
      ⟨404, .text ("Error fetching remote resource: " ++ toString 404), none, none,
        none, true, []⟩ :=
  (failure_no_cache_write [] "u.ts" none 0 (by decide) rfl).1 404 "nf" [1] (by decide)

/-!
## C4 -/

/-- Claim C4 counterexample: the cache key is the url alone, but the
"no second fetch, identical body" claim fails when the first 200
response cached a **falsy** payload.  A 200 upstream answer with an
empty body for a playlist url caches the empty rewritten playlist
`.text ""`; the second request within TTL finds it, but the route's
`if (cached)` is false on the empty string, so the route fetches
upstream again and here returns a different body. -/
theorem same_url_counterexample :
    (handleProxy [] (some "https://h/p.m3u8") none 0 (.success 200 "" [])).status =
      200 ∧
    (handleProxy (handleProxy [] (some "https://h/p.m3u8") none 0
        (.success 200 "" [])).cacheAfter (some "https://h/p.m3u8") none 0
        (.success 200 "#EXTM3U" [])).fetched = true ∧
    (handleProxy (handleProxy [] (some "https://h/p.m3u8") none 0
        (.success 200 "" [])).cacheAfter (some "https://h/p.m3u8") none 0
        (.success 200 "#EXTM3U" [])).body ≠
      (handleProxy [] (some "https://h/p.m3u8") none 0 (.success 200 "" [])).body := by
  exact ⟨rfl, rfl, by decide⟩

/-- Claim C4 amended: for two requests carrying the same raw `url`
value, where the first is answered 200 with a JS-truthy body (a segment
Buffer or a nonempty rewritten playlist — an empty playlist is falsy and
re-fetched, see the counterexample) and the second arrives while the
entry the first left behind is within its TTL, the second request
performs no upstream fetch and returns a body identical to the first
one's — whatever the `referer` parameter of either request and whatever
the second upstream would have returned: the cache key is the url string
alone. -/
theorem same_url_same_body (cache : Cache) (url : String) (ref1 ref2 : Option String)
    (now1 now2 : Nat) (u1 u2 : FetchOutcome) (hne : url ≠ "")
    (h200 : (handleProxy cache (some url) ref1 now1 u1).status = 200)
    (htr : payloadTruthy (handleProxy cache (some url) ref1 now1 u1).body = true)
    (hfresh : ∀ e,
      mapGet (handleProxy cache (some url) ref1 now1 u1).cacheAfter url = some e →
      now2 - e.timestamp ≤ ttlFor url) :
    (handleProxy (handleProxy cache (some url) ref1 now1 u1).cacheAfter (some url)
        ref2 now2 u2).fetched = false ∧
    (handleProxy (handleProxy cache (some url) ref1 now1 u1).cacheAfter (some url)
        ref2 now2 u2).body = (handleProxy cache (some url) ref1 now1 u1).body := by
  obtain ⟨e, hget, hdata⟩ := handler_200_entry cache url ref1 now1 u1 hne h200
  rw [handler_hit _ url ref2 now2 u2 e hne hget (hfresh e hget)
    (by rw [hdata]; exact htr)]
  exact ⟨rfl, hdata⟩

/-- Closed instance of `same_url_same_body`: a miss-then-hit pair for
`"s.ts"` with two different referers; the second request does not fetch
(its upstream oracle is a hard failure that is never consulted) and
returns the first body. -/
theorem same_url_same_body_witness :
    (handleProxy (handleProxy [] (some "s.ts") (some "refA") 0
        (.success 200 "t" [1])).cacheAfter (some "s.ts") (some "refB") 3600000
        (.failure "down")).fetched = false ∧
    (handleProxy (handleProxy [] (some "s.ts") (some "refA") 0
        (.success 200 "t" [1])).cacheAfter (some "s.ts") (some "refB") 3600000
        (.failure "down")).body =
      (handleProxy [] (some "s.ts") (some "refA") 0 (.success 200 "t" [1])).body := by
  apply same_url_same_body [] "s.ts" (some "refA") (some "refB") 0 3600000
      (.success 200 "t" [1]) (.failure "down") (by decide) rfl rfl
  intro e he
  have h0 : mapGet (handleProxy [] (some "s.ts") (some "refA") 0
      (.success 200 "t" [1])).cacheAfter "s.ts" = some ⟨Payload.bytes [1], 0⟩ := rfl
  have he' := Option.some.inj (h0.symm.trans he)
  rw [← he']
  decide

/-!
## Rewriter line lemmas, C3 and C6 -/

theorem rewrite_ok (text baseUrl referer : String) (b : URLRec)
    (hparse : parseURL baseUrl = some b) :
    rewritePlaylistUrls text baseUrl referer =
      .ok (joinLines ((splitLines text).map (rewriteLine b referer))) := by
  simp [rewritePlaylistUrls, hparse]

theorem rewriteLine_directive (b : URLRec) (referer line : String)
    (h : strTrim line = "" ∨ strStartsWith (strTrim line) "#" = true) :
    rewriteLine b referer line = line := by
  rcases h with h | h <;> simp [rewriteLine, h]

theorem rewriteLine_resolved (b : URLRec) (referer line resolved : String)
    (hnd : ¬(strTrim line = "" ∨ strStartsWith (strTrim line) "#" = true))
    (hres : resolveURL (strTrim line).data b = some resolved) :
    rewriteLine b referer line =
      "?url=" ++ encodeURIComponent resolved ++ "&referer=" ++
        encodeURIComponent referer := by
  obtain ⟨hA, hB⟩ := not_or.mp hnd
  have hB' : strStartsWith (strTrim line) "#" = false := by simpa using hB
  simp [rewriteLine, hB', hA, hres]

theorem rewriteLine_unresolved (b : URLRec) (referer line : String)
    (hnd : ¬(strTrim line = "" ∨ strStartsWith (strTrim line) "#" = true))
    (hres : resolveURL (strTrim line).data b = none) :
    rewriteLine b referer line = line := by
  obtain ⟨hA, hB⟩ := not_or.mp hnd
  have hB' : strStartsWith (strTrim line) "#" = false := by simpa using hB
  simp [rewriteLine, hB', hA, hres]

/-- Claim C3: on the four-line example playlist with base
`https://host/path/index.m3u8` and referer `https://ref/`, the three
directive lines survive verbatim in place and `seg1.ts` becomes
`?url=https%3A%2F%2Fhost%2Fpath%2Fseg1.ts&referer=https%3A%2F%2Fref%2F`;
in general (whenever the base parses, so that the rewrite returns) each
input line maps positionally to an output line, directive/blank lines
unchanged and successfully resolved URI lines to
`?url=<percent-encoded absolute URL>&referer=<percent-encoded referer>`. -/
theorem rewrite_correct :
    rewritePlaylistUrls "#EXTM3U\n#EXT-X-VERSION:3\nseg1.ts\n#EXT-X-ENDLIST"
        "https://host/path/index.m3u8" "https://ref/" =
      .ok ("#EXTM3U\n#EXT-X-VERSION:3\n?url=https%3A%2F%2Fhost%2Fpath%2Fseg1.ts&referer=https%3A%2F%2Fref%2F\n#EXT-X-ENDLIST") ∧
    ∀ (text baseUrl referer : String) (b : URLRec), parseURL baseUrl = some b →
      ∃ outLines : List String,
        rewritePlaylistUrls text baseUrl referer = .ok (joinLines outLines) ∧
        List.Forall₂ (fun line out =>
          ((strTrim line = "" ∨ strStartsWith (strTrim line) "#" = true) →
            out = line) ∧
          (∀ resolved,
            ¬(strTrim line = "" ∨ strStartsWith (strTrim line) "#" = true) →
            resolveURL (strTrim line).data b = some resolved →
            out = "?url=" ++ encodeURIComponent resolved ++ "&referer=" ++
              encodeURIComponent referer))
          (splitLines text) outLines := by
  constructor
  · rfl
  · intro text baseUrl referer b hparse
    refine ⟨(splitLines text).map (rewriteLine b referer),
      rewrite_ok text baseUrl referer b hparse, ?_⟩
    rw [List.forall₂_map_right_iff]
    rw [List.forall₂_same]
    intro line _
    constructor
    · exact fun h => rewriteLine_directive b referer line h
    · exact fun resolved hnd hres => rewriteLine_resolved b referer line resolved hnd hres

/-- Closed instance of the general part of `rewrite_correct` on the
one-line playlist `x.ts` with base `https://h/`. -/
theorem rewrite_correct_witness :
    ∃ outLines : List String,
      rewritePlaylistUrls "x.ts" "https://h/" "r" = .ok (joinLines outLines) ∧
      List.Forall₂ (fun line out =>
        ((strTrim line = "" ∨ strStartsWith (strTrim line) "#" = true) →
          out = line) ∧
        (∀ resolved,
          ¬(strTrim line = "" ∨ strStartsWith (strTrim line) "#" = true) →
          resolveURL (strTrim line).data ⟨"https".data, "h".data, [[]], none⟩ =
            some resolved →
          out = "?url=" ++ encodeURIComponent resolved ++ "&referer=" ++
            encodeURIComponent "r"))
        (splitLines "x.ts") outLines := by
  exact rewrite_correct.2 "x.ts" "https://h/" "r"
    ⟨"https".data, "h".data, [[]], none⟩ rfl

/-- Claim C6 counterexample: `rewritePlaylistUrls` does **not** return for
every base URL string — with the unparsable base `""` the
`new URL(baseUrl)` at the top of the function (outside any try/catch)
throws `TypeError("Invalid URL")`, modelled as `Except.error`. -/
theorem rewrite_throws_counterexample :
    rewritePlaylistUrls "seg1.ts" "" "https://ref/" = .error "Invalid URL" ∧
    (rewritePlaylistUrls "seg1.ts" "" "https://ref/").isOk = false := by
  exact ⟨rfl, rfl⟩

/-- Claim C6 amended: whenever the base URL parses (which holds for every url
the route actually passes, since the same parser accepted it during the
fetch), the rewrite does not raise, and any non-directive line whose
resolution against the base fails is emitted unchanged at its original
position while processing continues; for an unparsable base the
function throws. -/
theorem rewrite_no_raise (text baseUrl referer : String) (b : URLRec)
    (hparse : parseURL baseUrl = some b) :
    (rewritePlaylistUrls text baseUrl referer).isOk = true ∧
    ∃ outLines : List String,
      rewritePlaylistUrls text baseUrl referer = .ok (joinLines outLines) ∧
      List.Forall₂ (fun line out =>
        ¬(strTrim line = "" ∨ strStartsWith (strTrim line) "#" = true) →
        resolveURL (strTrim line).data b = none → out = line)
        (splitLines text) outLines := by
  rw [rewrite_ok text baseUrl referer b hparse]
  refine ⟨rfl, (splitLines text).map (rewriteLine b referer), rfl, ?_⟩
  rw [List.forall₂_map_right_iff, List.forall₂_same]
  exact fun line _ hnd hres => rewriteLine_unresolved b referer line hnd hres

/-- Closed instance of `rewrite_no_raise`: a playlist whose URI line
`https://ho st/x.ts` fails resolution (space in the authority) still
rewrites without raising. -/
theorem rewrite_no_raise_witness :
    (rewritePlaylistUrls "#EXTM3U\nhttps://ho st/x.ts" "https://h/" "r").isOk =
      true :=
  (rewrite_no_raise "#EXTM3U\nhttps://ho st/x.ts" "https://h/" "r"
    ⟨"https".data, "h".data, [[]], none⟩ rfl).1

/-!
## Bulk-insertion machinery for the capacity claims -/

/-- The `i`-th of a family of pairwise-distinct, nonempty keys:
`"a"`, `"aa"`, `"aaa"`, … -/
def akey (i : Nat) : String := String.mk (List.replicate (i + 1) 'a')

/-- A sequence of `set` operations sharing one payload and one time,
oldest first (the shape of the bulk-insert counterexample). -/
def insertAll (ks : List String) (d : Payload) (now : Nat) (cache : Cache) : Cache :=
  ks.foldl (fun acc k => setCache acc k d now) cache

/-- One `set` operation: its key, its payload and the `Date.now()` at
which it runs. -/
structure SetOp where
  key : String
  data : Payload
  time : Nat
deriving DecidableEq

/-- An arbitrary sequence of `set` operations — repeated keys and
per-operation payloads and times allowed — oldest first. -/
def runSets (ops : List SetOp) (cache : Cache) : Cache :=
  ops.foldl (fun acc op => setCache acc op.key op.data op.time) cache

theorem akey_inj : Function.Injective akey := by
  intro i j h
  have hlen := congrArg (fun s => s.data.length) h
  simp [akey] at hlen
  exact hlen

theorem akey_ne_empty (i : Nat) : akey i ≠ "" := by
  intro h
  have hlen := congrArg (fun s => s.data.length) h
  simp [akey] at hlen

theorem mapReplace_length (m : Cache) (k : String) (e : CacheEntry) :
    (mapReplace m k e).length = m.length := by
  induction m with
  | nil => rfl
  | cons p rest ih =>
    obtain ⟨k', e'⟩ := p
    by_cases hk : k' = k <;> simp [mapReplace, hk, ih]

theorem mapDelete_length_le (m : Cache) (k : String) :
    (mapDelete m k).length ≤ m.length := by
  induction m with
  | nil => exact Nat.le_refl 0
  | cons p rest ih =>
    obtain ⟨k', e'⟩ := p
    by_cases hk : k' = k <;> simp [mapDelete, hk] <;> omega

theorem mapSet_length_le (m : Cache) (k : String) (e : CacheEntry) :
    (mapSet m k e).length ≤ m.length + 1 := by
  unfold mapSet
  by_cases hc : mapContains m k = true
  · simp [hc, mapReplace_length]
  · simp at hc
    simp [hc]

theorem mem_of_mem_mapReplace (m : Cache) (k : String) (e : CacheEntry)
    (p : String × CacheEntry) (hp : p ∈ mapReplace m k e) : p ∈ m ∨ p = (k, e) := by
  induction m with
  | nil => cases hp
  | cons q rest ih =>
    obtain ⟨k', e'⟩ := q
    by_cases hk : k' = k
    · simp [mapReplace, hk] at hp
      rcases hp with hp | hp
      · exact .inr (by simp [hp])
      · exact .inl (by simp [hp])
    · simp [mapReplace, hk] at hp
      rcases hp with hp | hp
      · exact .inl (by simp [hp])
      · rcases ih hp with h | h
        · exact .inl (List.mem_cons_of_mem _ h)
        · exact .inr h

theorem mem_of_mem_mapSet (m : Cache) (k : String) (e : CacheEntry)
    (p : String × CacheEntry) (hp : p ∈ mapSet m k e) : p ∈ m ∨ p = (k, e) := by
  unfold mapSet at hp
  by_cases hc : mapContains m k = true
  · rw [if_pos hc] at hp
    exact mem_of_mem_mapReplace m k e p hp
  · rw [if_neg hc] at hp
    rcases List.mem_append.mp hp with h | h
    · exact .inl h
    · exact .inr (by simpa using h)

theorem mem_of_mem_mapDelete (m : Cache) (k : String)
    (p : String × CacheEntry) (hp : p ∈ mapDelete m k) : p ∈ m := by
  induction m with
  | nil => cases hp
  | cons q rest ih =>
    obtain ⟨k', e'⟩ := q
    by_cases hk : k' = k
    · simp [mapDelete, hk] at hp
      exact List.mem_cons_of_mem _ (ih hp)
    · simp [mapDelete, hk] at hp
      rcases hp with hp | hp
      · exact by simp [hp]
      · exact List.mem_cons_of_mem _ (ih hp)

theorem mapDelete_not_contains (m : Cache) (k : String)
    (h : mapContains m k = false) : mapDelete m k = m := by
  induction m with
  | nil => rfl
  | cons p rest ih =>
    obtain ⟨k', e'⟩ := p
    simp [mapContains] at h
    simp [mapDelete, h.1, ih h.2]

theorem mapGet_mapStore_of_mem (ks : List String) (e : CacheEntry) (k : String)
    (hk : k ∈ ks) : mapGet (ks.map (fun x => (x, e))) k = some e := by
  induction ks with
  | nil => cases hk
  | cons k' rest ih =>
    by_cases h : k' = k
    · simp [mapGet, h]
    · rcases List.mem_cons.mp hk with hh | hh
      · exact absurd hh.symm h
      · simp [mapGet, h, ih hh]

theorem setCache_small (cache : Cache) (k : String) (d : Payload) (now : Nat)
    (hsize : cache.length ≤ 1000) (hfresh : mapContains cache k = false) :
    setCache cache k d now = cache ++ [(k, ⟨d, now⟩)] := by
  have hnb : ¬ mapSize cache > 1000 := by simp [mapSize]; omega
  simp [setCache, hnb, mapSet, hfresh]

theorem insertAll_fresh (ks : List String) (d : Payload) (now : Nat) (cache : Cache)
    (hnd : ks.Nodup) (hdisj : ∀ k ∈ ks, mapContains cache k = false)
    (hsize : cache.length + ks.length ≤ 1001) :
    insertAll ks d now cache = cache ++ ks.map (fun k => (k, ⟨d, now⟩)) := by
  induction ks generalizing cache with
  | nil => simp [insertAll]
  | cons k rest ih =>
    have hlen : cache.length ≤ 1000 := by simp at hsize; omega
    have h1 : setCache cache k d now = cache ++ [(k, ⟨d, now⟩)] :=
      setCache_small cache k d now hlen (hdisj k (by simp))
    have h2 : insertAll (k :: rest) d now cache =
        insertAll rest d now (setCache cache k d now) := rfl
    have hdisj' : ∀ k' ∈ rest, mapContains (cache ++ [(k, ⟨d, now⟩)]) k' = false := by
      intro k' hk'
      rw [mapContains_append]
      have hkne : k ≠ k' := fun h => (List.nodup_cons.mp hnd).1 (h ▸ hk')
      simp [hdisj k' (List.mem_cons_of_mem _ hk'), mapContains, hkne]
    have hih := ih (cache ++ [(k, ({ data := d, timestamp := now } : CacheEntry))])
      hnd.of_cons hdisj' (by simp at hsize ⊢; omega)
    rw [h2, h1, hih]
    simp

theorem setCache_good (m : Cache) (k : String) (d : Payload) (now : Nat)
    (hk : k ≠ "") (hlen : m.length ≤ 1001) (hkeys : ∀ p ∈ m, p.1 ≠ "") :
    (setCache m k d now).length ≤ 1001 ∧ ∀ p ∈ setCache m k d now, p.1 ≠ "" := by
  by_cases hbig : mapSize m > 1000
  · rcases m with _ | ⟨⟨f, e0⟩, rest⟩
    · simp [mapSize] at hbig
    · have hf : f ≠ "" := hkeys (f, e0) (by simp)
      have heq : setCache ((f, e0) :: rest) k d now =
          mapSet (mapDelete rest f) k ⟨d, now⟩ := by
        simp [setCache, hbig, firstKey, hf, mapDelete]
      rw [heq]
      have hrest : rest.length ≤ 1000 := by simp [mapSize] at hlen hbig ⊢; omega
      constructor
      · have h3 := mapSet_length_le (mapDelete rest f) k ⟨d, now⟩
        have h2 := mapDelete_length_le rest f
        omega
      · intro p hp
        rcases mem_of_mem_mapSet _ _ _ _ hp with hin | hpe
        · exact hkeys p (List.mem_cons_of_mem _ (mem_of_mem_mapDelete _ _ _ hin))
        · rw [hpe]; exact hk
  · have heq : setCache m k d now = mapSet m k ⟨d, now⟩ := by
      simp [setCache, hbig]
    rw [heq]
    have hm : m.length ≤ 1000 := by simp [mapSize] at hbig; omega
    constructor
    · have := mapSet_length_le m k ⟨d, now⟩
      omega
    · intro p hp
      rcases mem_of_mem_mapSet _ _ _ _ hp with hin | hpe
      · exact hkeys p hin
      · rw [hpe]; exact hk

theorem runSets_good (ops : List SetOp) (m : Cache)
    (hops : ∀ op ∈ ops, op.key ≠ "") (hlen : m.length ≤ 1001)
    (hkeys : ∀ p ∈ m, p.1 ≠ "") :
    (runSets ops m).length ≤ 1001 ∧ ∀ p ∈ runSets ops m, p.1 ≠ "" := by
  induction ops generalizing m with
  | nil => exact ⟨hlen, hkeys⟩
  | cons op rest ih =>
    have hstep := setCache_good m op.key op.data op.time (hops op (by simp)) hlen hkeys
    have h2 : runSets (op :: rest) m =
        runSets rest (setCache m op.key op.data op.time) := rfl
    rw [h2]
    exact ih (setCache m op.key op.data op.time)
      (fun op' hop' => hops op' (List.mem_cons_of_mem _ hop')) hstep.1 hstep.2

theorem runSets_append (a b : List SetOp) (m : Cache) :
    runSets (a ++ b) m = runSets b (runSets a m) := by
  simp [runSets, List.foldl_append]

theorem mapGet_opStore_of_not_mem (ops : List SetOp) (k : String)
    (hk : k ∉ ops.map SetOp.key) :
    mapGet (ops.map (fun op => (op.key, ⟨op.data, op.time⟩))) k = none := by
  induction ops with
  | nil => rfl
  | cons op rest ih =>
    rw [List.map_cons] at hk
    have h1 : k ≠ op.key := fun h => hk (h ▸ List.mem_cons_self _ _)
    have h2 : k ∉ rest.map SetOp.key := fun h => hk (List.mem_cons_of_mem _ h)
    simp [mapGet, Ne.symm h1, ih h2]

theorem mapContains_opStore_of_not_mem (ops : List SetOp) (k : String)
    (hk : k ∉ ops.map SetOp.key) :
    mapContains (ops.map (fun op => (op.key, ⟨op.data, op.time⟩))) k = false := by
  induction ops with
  | nil => rfl
  | cons op rest ih =>
    rw [List.map_cons] at hk
    have h1 : k ≠ op.key := fun h => hk (h ▸ List.mem_cons_self _ _)
    have h2 : k ∉ rest.map SetOp.key := fun h => hk (List.mem_cons_of_mem _ h)
    simp [mapContains, Ne.symm h1, ih h2]

theorem mapGet_opStore_of_mem (ops : List SetOp) (op : SetOp)
    (hnd : (ops.map SetOp.key).Nodup) (hop : op ∈ ops) :
    mapGet (ops.map (fun o => (o.key, ⟨o.data, o.time⟩))) op.key =
      some ⟨op.data, op.time⟩ := by
  induction ops with
  | nil => cases hop
  | cons op' rest ih =>
    rcases List.mem_cons.mp hop with h | h
    · subst h
      simp [mapGet]
    · have hne2 : op'.key ≠ op.key := by
        intro heq
        exact (List.nodup_cons.mp hnd).1 (heq ▸ List.mem_map_of_mem SetOp.key h)
      simp [mapGet, hne2, ih (List.nodup_cons.mp hnd).2 h]

theorem runSets_fresh (ops : List SetOp) (m : Cache)
    (hnd : (ops.map SetOp.key).Nodup)
    (hdisj : ∀ op ∈ ops, mapContains m op.key = false)
    (hsize : m.length + ops.length ≤ 1001) :
    runSets ops m = m ++ ops.map (fun op => (op.key, ⟨op.data, op.time⟩)) := by
  induction ops generalizing m with
  | nil => simp [runSets]
  | cons op rest ih =>
    have hlen : m.length ≤ 1000 := by simp at hsize; omega
    have h1 : setCache m op.key op.data op.time =
        m ++ [(op.key, ⟨op.data, op.time⟩)] :=
      setCache_small m op.key op.data op.time hlen (hdisj op (by simp))
    have hkey_not : op.key ∉ rest.map SetOp.key := (List.nodup_cons.mp hnd).1
    have hdisj' : ∀ op' ∈ rest,
        mapContains (m ++ [(op.key, ⟨op.data, op.time⟩)]) op'.key = false := by
      intro op' hop'
      rw [mapContains_append]
      have hne2 : op.key ≠ op'.key := by
        intro h
        exact hkey_not (h ▸ List.mem_map_of_mem SetOp.key hop')
      simp [hdisj op' (List.mem_cons_of_mem _ hop'), mapContains, hne2]
    have hih := ih (m ++ [(op.key, ({ data := op.data, timestamp := op.time } :
        CacheEntry))]) (List.nodup_cons.mp hnd).2 hdisj' (by simp at hsize ⊢; omega)
    have h2 : runSets (op :: rest) m =
        runSets rest (setCache m op.key op.data op.time) := rfl
    rw [h2, h1, hih]
    simp

theorem runSets_1002 (op0 : SetOp) (opr : List SetOp)
    (hnd : ((op0 :: opr).map SetOp.key).Nodup) (hk0 : op0.key ≠ "")
    (hlen : opr.length = 1001) :
    runSets (op0 :: opr) [] = opr.map (fun op => (op.key, ⟨op.data, op.time⟩)) := by
  have hkr : opr ≠ [] := by intro h; rw [h] at hlen; cases hlen
  obtain ⟨kinit, klast, hsplit, hkinit_len⟩ :
      ∃ kinit klast, kinit ++ [klast] = opr ∧ kinit.length = 1000 :=
    ⟨opr.dropLast, opr.getLast hkr, List.dropLast_append_getLast hkr,
      by rw [List.length_dropLast, hlen]⟩
  subst hsplit
  rw [List.map_cons] at hnd
  have hk0_not : op0.key ∉ (kinit ++ [klast]).map SetOp.key :=
    (List.nodup_cons.mp hnd).1
  have hk0_not_init : op0.key ∉ kinit.map SetOp.key := by
    intro h
    exact hk0_not (by rw [List.map_append]; exact List.mem_append_left _ h)
  have htail_nd : (kinit.map SetOp.key ++ [klast].map SetOp.key).Nodup := by
    have := (List.nodup_cons.mp hnd).2
    rwa [List.map_append] at this
  have hlast_not_init : klast.key ∉ kinit.map SetOp.key := by
    obtain ⟨-, -, hdisj⟩ := List.nodup_append.mp htail_nd
    intro h
    exact hdisj h (by simp)
  have hnd_init : ((op0 :: kinit).map SetOp.key).Nodup := by
    rw [List.map_cons]
    exact List.nodup_cons.mpr ⟨hk0_not_init, (List.nodup_append.mp htail_nd).1⟩
  have hstep1 : runSets (op0 :: kinit) [] =
      (op0 :: kinit).map (fun op => (op.key, ⟨op.data, op.time⟩)) := by
    simpa using runSets_fresh (op0 :: kinit) [] hnd_init (fun op _ => rfl)
      (by simp [hkinit_len])
  have hdecomp : runSets (op0 :: (kinit ++ [klast])) [] =
      setCache (runSets (op0 :: kinit) []) klast.key klast.data klast.time := by
    rw [show op0 :: (kinit ++ [klast]) = (op0 :: kinit) ++ [klast] from rfl,
      runSets_append]
    rfl
  rw [hdecomp, hstep1, List.map_cons]
  have hbig : mapSize ((op0.key, (⟨op0.data, op0.time⟩ : CacheEntry)) ::
      kinit.map (fun op => (op.key, ⟨op.data, op.time⟩))) > 1000 := by
    simp [mapSize, hkinit_len]
  have hcinit : mapContains (kinit.map (fun op => (op.key, ⟨op.data, op.time⟩)))
      op0.key = false := mapContains_opStore_of_not_mem _ _ hk0_not_init
  have hdel : mapDelete ((op0.key, (⟨op0.data, op0.time⟩ : CacheEntry)) ::
      kinit.map (fun op => (op.key, ⟨op.data, op.time⟩))) op0.key =
      kinit.map (fun op => (op.key, ⟨op.data, op.time⟩)) := by
    have h1 : mapDelete ((op0.key, (⟨op0.data, op0.time⟩ : CacheEntry)) ::
        kinit.map (fun op => (op.key, ⟨op.data, op.time⟩))) op0.key =
        mapDelete (kinit.map (fun op => (op.key, ⟨op.data, op.time⟩))) op0.key := by
      simp [mapDelete]
    rw [h1, mapDelete_not_contains _ _ hcinit]
  have heq : setCache ((op0.key, (⟨op0.data, op0.time⟩ : CacheEntry)) ::
      kinit.map (fun op => (op.key, ⟨op.data, op.time⟩))) klast.key klast.data
      klast.time =
      mapSet (kinit.map (fun op => (op.key, ⟨op.data, op.time⟩))) klast.key
        ⟨klast.data, klast.time⟩ := by
    simp [setCache, hbig, firstKey, hk0, hdel]
  rw [heq]
  have hc2 : mapContains (kinit.map (fun op => (op.key, ⟨op.data, op.time⟩)))
      klast.key = false := mapContains_opStore_of_not_mem _ _ hlast_not_init
  have hset : mapSet (kinit.map (fun op => (op.key, ⟨op.data, op.time⟩))) klast.key
      ⟨klast.data, klast.time⟩ =
      kinit.map (fun op => (op.key, ⟨op.data, op.time⟩)) ++
        [(klast.key, ⟨klast.data, klast.time⟩)] := by
    simp [mapSet, hc2]
  rw [hset]
  simp

/-!
## C2 -/

/-- Claim C2 counterexample: after inserting 1001 distinct (nonempty) keys
into an empty store, the store holds 1001 entries — more than the
claimed 1000-entry bound — and the first-inserted key is still
retrievable via `get`, because the eviction guard is `size > 1000`,
which is still false when the 1001-st key is inserted. -/
theorem capacity_counterexample :
    mapSize (insertAll ((List.range 1001).map akey) (.text "p") 0 []) = 1001 ∧
    ¬ mapSize (insertAll ((List.range 1001).map akey) (.text "p") 0 []) ≤ 1000 ∧
    (getCached (insertAll ((List.range 1001).map akey) (.text "p") 0 [])
        (akey 0) 0).1 = some (.text "p") := by
  have hnd : ((List.range 1001).map akey).Nodup :=
    List.Nodup.map akey_inj (List.nodup_range 1001)
  have heq := insertAll_fresh ((List.range 1001).map akey) (.text "p") 0 [] hnd
    (fun k _ => rfl) (by simp)
  simp only [List.nil_append] at heq
  have h1001 : mapSize (insertAll ((List.range 1001).map akey) (.text "p") 0 []) =
      1001 := by
    rw [heq]; simp [mapSize]
  refine ⟨h1001, by omega, ?_⟩
  rw [heq]
  have hmem : akey 0 ∈ (List.range 1001).map akey :=
    List.mem_map_of_mem akey (by simp)
  rw [getCached_hit _ (akey 0) 0 ⟨.text "p", 0⟩
    (mapGet_mapStore_of_mem _ _ _ hmem) (by simp)]

/-- Claim C2 amended: starting from empty, **any** sequence of `set`
operations with nonempty keys — repeated keys and per-operation payloads
and timestamps allowed — keeps the store at **1001** entries or fewer at
every point (the eviction guard is `size > 1000`, strictly); a `set`
onto a store of 1001 entries first evicts exactly the earliest-inserted
entry; and after inserting 1002 distinct nonempty keys (each with its
own payload and time) exactly the first-inserted key is unavailable via
`get` while the other 1001 remain retrievable with their own payloads,
at any query time within each entry's TTL. -/
theorem capacity_fifo (ops : List SetOp) (op0 : SetOp) (opr : List SetOp) (now2 : Nat)
    (hops : ∀ op ∈ ops, op.key ≠ "")
    (hnd : ((op0 :: opr).map SetOp.key).Nodup)
    (hne : ∀ op ∈ op0 :: opr, op.key ≠ "") :
    (∀ n, mapSize (runSets (ops.take n) []) ≤ 1001) ∧
    (∀ (m : Cache) (k f : String) (d : Payload) (t : Nat), mapSize m = 1001 →
      firstKey m = some f → f ≠ "" →
      setCache m k d t = mapSet (mapDelete m f) k ⟨d, t⟩) ∧
    (opr.length = 1001 → (∀ op ∈ opr, now2 - op.time ≤ ttlFor op.key) →
      (getCached (runSets (op0 :: opr) []) op0.key now2).1 = none ∧
      ∀ op ∈ opr, (getCached (runSets (op0 :: opr) []) op.key now2).1 =
        some op.data) := by
  refine ⟨?_, ?_, ?_⟩
  · intro n
    exact (runSets_good (ops.take n) []
      (fun op hop => hops op (List.take_subset n _ hop)) (by simp) (by simp)).1
  · intro m k f d t hsize hfk hf
    have hbig : mapSize m > 1000 := by omega
    simp [setCache, hbig, hfk, hf]
  · intro hlen hfreshAll
    have hk0 : op0.key ≠ "" := hne op0 (by simp)
    rw [runSets_1002 op0 opr hnd hk0 hlen]
    have hk0nr : op0.key ∉ opr.map SetOp.key := by
      rw [List.map_cons] at hnd
      exact (List.nodup_cons.mp hnd).1
    constructor
    · rw [getCached_absent _ op0.key now2 (mapGet_opStore_of_not_mem opr _ hk0nr)]
    · intro op hop
      have hndr : (opr.map SetOp.key).Nodup := by
        rw [List.map_cons] at hnd
        exact (List.nodup_cons.mp hnd).2
      rw [getCached_hit _ op.key now2 ⟨op.data, op.time⟩
        (mapGet_opStore_of_mem opr op hndr hop) (hfreshAll op hop)]

/-- Closed instance of `capacity_fifo`: a two-operation sequence with
distinct payloads and times respects the 1001-entry bound. -/
theorem capacity_fifo_witness :
    mapSize (runSets ([⟨"a", Payload.text "p", 0⟩,
      ⟨"b", Payload.bytes [1], 5⟩].take 2) []) ≤ 1001 :=
  (capacity_fifo [⟨"a", Payload.text "p", 0⟩, ⟨"b", Payload.bytes [1], 5⟩]
    ⟨"a", Payload.text "p", 0⟩ [] 0 (by decide) (by decide) (by decide)).1 2

/-!
## C8 -/

/-- A store of 1001 distinct single-character-family keys, as built by
1001 inserts (insertion order `akey 0`, `akey 1`, …). -/
def bigStore : Cache :=
  ((List.range 1001).map akey).map (fun k => (k, ⟨Payload.text "p", 0⟩))

/-- Claim C8 counterexample: with 1001 entries in the store, `set` of the
**already-present** key `akey 5` still runs the eviction branch (the
size check precedes any key-existence check) and deletes the unrelated
earliest-inserted entry `akey 0` — the claim's "no eviction occurs"
fails. -/
theorem set_present_evicts_counterexample :
    mapGet bigStore (akey 5) = some ⟨Payload.text "p", 0⟩ ∧
    mapGet bigStore (akey 0) = some ⟨Payload.text "p", 0⟩ ∧
    mapGet (setCache bigStore (akey 5) (Payload.text "q") 7) (akey 0) = none := by
  have hmem5 : akey 5 ∈ (List.range 1001).map akey :=
    List.mem_map_of_mem akey (by simp)
  have hmem0 : akey 0 ∈ (List.range 1001).map akey :=
    List.mem_map_of_mem akey (by simp)
  refine ⟨mapGet_mapStore_of_mem _ _ _ hmem5, mapGet_mapStore_of_mem _ _ _ hmem0, ?_⟩
  have hbig : mapSize bigStore > 1000 := by simp [bigStore, mapSize]
  have hfirst : firstKey bigStore = some (akey 0) := by
    rw [bigStore, List.range_succ_eq_map]
    rfl
  have hset : setCache bigStore (akey 5) (Payload.text "q") 7 =
      mapSet (mapDelete bigStore (akey 0)) (akey 5) ⟨Payload.text "q", 7⟩ := by
    simp [setCache, hbig, hfirst, akey_ne_empty 0]
  rw [hset, mapGet_set_ne _ (akey 0) (akey 5) _
    (fun h => absurd (akey_inj h) (by decide))]
  exact mapGet_delete_self bigStore (akey 0)

/-- Claim C8 amended: when the store holds at most 1000 entries, `set` of an
already-present key overwrites that entry in place with the new payload
and `insertedAt = now`, leaves every other entry's lookup unchanged, and
evicts nothing — the key list is untouched, so a duplicate-free key list
stays duplicate-free and at most one entry per key exists afterwards.
(With more than 1000 entries the eviction branch runs first even for a
present key; see the counterexample.) -/
theorem set_overwrite (m : Cache) (key : String) (e0 : CacheEntry) (d : Payload)
    (now : Nat) (hk : mapGet m key = some e0) (hsize : mapSize m ≤ 1000) :
    setCache m key d now = mapReplace m key ⟨d, now⟩ ∧
    mapGet (setCache m key d now) key = some ⟨d, now⟩ ∧
    (∀ k, k ≠ key → mapGet (setCache m key d now) k = mapGet m k) ∧
    (setCache m key d now).map Prod.fst = m.map Prod.fst ∧
    ((m.map Prod.fst).Nodup → ((setCache m key d now).map Prod.fst).Nodup) := by
  have hc : mapContains m key = true := mapContains_of_mapGet m key e0 hk
  have hnb : ¬ mapSize m > 1000 := by omega
  have heq : setCache m key d now = mapReplace m key ⟨d, now⟩ := by
    simp [setCache, hnb, mapSet, hc]
  refine ⟨heq, ?_, ?_, ?_, ?_⟩
  · rw [heq]; exact mapGet_replace_self m key ⟨d, now⟩ hc
  · intro k hkne; rw [heq]; exact mapGet_replace_ne m k key ⟨d, now⟩ hkne
  · rw [heq]; exact keys_replace m key ⟨d, now⟩
  · intro hnd
    rw [heq, keys_replace m key ⟨d, now⟩]
    exact hnd

/-- Closed instance of `set_overwrite` on a two-entry store: `"x"` is
overwritten with the fresh timestamp and `"y"`'s lookup is untouched. -/
theorem set_overwrite_witness :
    mapGet (setCache [("x", ⟨Payload.text "old", 0⟩), ("y", ⟨Payload.text "o2", 1⟩)]
        "x" (Payload.text "new") 9) "x" = some ⟨Payload.text "new", 9⟩ ∧
    mapGet (setCache [("x", ⟨Payload.text "old", 0⟩), ("y", ⟨Payload.text "o2", 1⟩)]
        "x" (Payload.text "new") 9) "y" =
      mapGet [("x", ⟨Payload.text "old", 0⟩), ("y", ⟨Payload.text "o2", 1⟩)] "y" := by
  refine ⟨(set_overwrite [("x", ⟨Payload.text "old", 0⟩), ("y", ⟨Payload.text "o2", 1⟩)]
      "x" ⟨Payload.text "old", 0⟩ (Payload.text "new") 9 rfl (by decide)).2.1,
    (set_overwrite [("x", ⟨Payload.text "old", 0⟩), ("y", ⟨Payload.text "o2", 1⟩)]
      "x" ⟨Payload.text "old", 0⟩ (Payload.text "new") 9 rfl
      (by decide)).2.2.1 "y" (by decide)⟩
